import Mathlib

/-!
Shallow embedding of `dicompylercore/dvh.py` (class `DVH` and `DVHValue`).

Modelling conventions:
* numpy float arrays become `List ℚ`; "equality within floating tolerance"
  (`np.allclose`) becomes exact equality of rationals;
* division is rational division (total, with `q / 0 = 0`); every theorem that
  touches a quotient carries hypotheses keeping the denominator nonzero, so no
  statement relies on the `q / 0 = 0` convention where numpy would produce
  `inf`/`nan`;
* `raise` becomes `Except PyErr`; Python truthiness of the optional
  prescription dose (`not self.rx_dose`) is modelled by `pyFalsy`
  (`None` and `0` are both falsy);
* `str.lower` is modelled for ASCII strings by `lowerStr`;
* the regular expression dispatch in `DVH.__getattr__` is modelled by a
  backtracking matcher (`reFullMatch`) that follows the Python `re` engine's
  greedy/backtracking order for the concrete pattern
  `(\S+)?(D|V){1}(\d+[.]?\d*)(gy|cc)?(?!\S+)` anchored at position 0.
-/

/-- Errors surfaced by the DVH code: the missing-prescription-dose
`AttributeError`, the unknown-statistic `AttributeError` raised by
`__getattr__`, and the `ValueError` raised by `int()` on a non-integer
numeral. -/
inductive PyErr where
  | missingRxDose : PyErr
  | attributeError : PyErr
  | valueError : PyErr
deriving DecidableEq

/-- ASCII lower-casing of a single character, as Python `str.lower` acts on
ASCII letters. -/
def lowerChar (c : Char) : Char :=
  if 'A' ≤ c ∧ c ≤ 'Z' then Char.ofNat (c.toNat + 32) else c

/-- ASCII lower-casing of a string (model of Python `str.lower` for the ASCII
strings used as unit and type labels). -/
def lowerStr (s : String) : String :=
  ⟨s.data.map lowerChar⟩

/-- Python truthiness of an optional number: `None` and `0` are falsy. -/
def pyFalsy (o : Option ℚ) : Bool :=
  match o with
  | none => true
  | some x => x = 0

/-- The DVH record: counts, bins, histogram type, dose units, volume units,
optional prescription dose and optional name, exactly the attributes stored by
`DVH.__init__`. -/
structure DVH where
  counts : List ℚ
  bins : List ℚ
  dvh_type : String
  dose_units : String
  volume_units : String
  rx_dose : Option ℚ
  name : Option String
deriving DecidableEq

/-- The constructor `DVH.__init__`: stores counts as given, prepends a zero
bin edge when the first caller-supplied edge is nonzero, and lower-cases the
`dvh_type` / `dose_units` / `volume_units` labels.  (Python indexes `bins[0]`,
so the caller is expected to pass a nonempty `bins`; on `[]` this model
prepends the zero edge.) -/
def DVH.mk' (counts bins : List ℚ) (dvh_type dose_units volume_units : String)
    (rx_dose : Option ℚ) (name : Option String) : DVH :=
  { counts := counts
    bins := if bins.head? = some 0 then bins else 0 :: bins
    dvh_type := lowerStr dvh_type
    dose_units := lowerStr dose_units
    volume_units := lowerStr volume_units
    rx_dose := rx_dose
    name := name }

/-- Well-formedness every constructor-produced DVH enjoys: the stored bins
start with the zero edge and the three label fields are already
lower-case. -/
def DVH.WF (d : DVH) : Prop :=
  d.bins.head? = some 0 ∧ lowerStr d.dvh_type = d.dvh_type ∧
    lowerStr d.dose_units = d.dose_units ∧
    lowerStr d.volume_units = d.volume_units

instance (d : DVH) : Decidable d.WF := by
  unfold DVH.WF; infer_instance

/-- The comparison `DVH.__eq__`: the three label attributes compare exactly
and `counts` / `bins` compare with `np.allclose` (exact equality in this
rational model). -/
def dvhEq (a b : DVH) : Bool :=
  a.dvh_type = b.dvh_type ∧ a.dose_units = b.dose_units ∧
    a.volume_units = b.volume_units ∧ a.counts = b.counts ∧ a.bins = b.bins

/-- Absolute successive differences: the model of
`abs(np.diff(counts) * -1)`, i.e. the list of values of the absolute
difference of each adjacent pair. -/
def adjDiffAbs : List ℚ → List ℚ
  | a :: b :: t => |a - b| :: adjDiffAbs (b :: t)
  | _ => []

/-- Suffix sums: the model of `counts[::-1].cumsum()[::-1]` (entry `i` is the
sum of the tail starting at `i`). -/
def suffixSums : List ℚ → List ℚ
  | [] => []
  | a :: t => (a + t.sum) :: suffixSums t

/-- The property `DVH.differential`: identity on a differential DVH, otherwise
a new DVH through the constructor with counts
`np.append(abs(np.diff(counts) * -1), [0])` and `dvh_type` set to
`'differential'`. -/
def DVH.differential (d : DVH) : DVH :=
  if d.dvh_type = "differential" then d
  else
    DVH.mk' (adjDiffAbs d.counts ++ [0]) d.bins "differential" d.dose_units
      d.volume_units d.rx_dose d.name

/-- The property `DVH.cumulative`: identity on a cumulative DVH, otherwise a
new DVH through the constructor with counts `counts[::-1].cumsum()[::-1]` and
`dvh_type` set to `'cumulative'`. -/
def DVH.cumulative (d : DVH) : DVH :=
  if d.dvh_type = "cumulative" then d
  else
    DVH.mk' (suffixSums d.counts) d.bins "cumulative" d.dose_units
      d.volume_units d.rx_dose d.name

/-- The method `DVH.absolute_dose(rx_dose=None, dose_units='gy')`: identity
when the dose units already match, an `AttributeError` when both the stored
and the supplied prescription doses are falsy, otherwise a new DVH whose bins
are scaled by `rxdose / 100`, the stored prescription dose taking precedence
over the argument whenever it is not `None`. -/
def DVH.absolute_dose (d : DVH) (rx_dose : Option ℚ) (dose_units : String) :
    Except PyErr DVH :=
  if d.dose_units = dose_units then .ok d
  else if pyFalsy d.rx_dose && pyFalsy rx_dose then .error .missingRxDose
  else
    let rxdose : ℚ :=
      match d.rx_dose with
      | some r => r
      | none => rx_dose.getD 0
    .ok (DVH.mk' d.counts (d.bins.map (fun b => b * rxdose / 100)) d.dvh_type
      dose_units d.volume_units d.rx_dose d.name)

/-- The method `DVH.relative_dose(rx_dose=None)`: identity when the dose units
are already `'%'`, an `AttributeError` when both the stored and the supplied
prescription doses are falsy, otherwise a new DVH whose bins are scaled by
`100 / rxdose`, the stored prescription dose taking precedence over the
argument whenever it is not `None`. -/
def DVH.relative_dose (d : DVH) (rx_dose : Option ℚ) : Except PyErr DVH :=
  if d.dose_units = "%" then .ok d
  else if pyFalsy d.rx_dose && pyFalsy rx_dose then .error .missingRxDose
  else
    let rxdose : ℚ :=
      match d.rx_dose with
      | some r => r
      | none => rx_dose.getD 0
    .ok (DVH.mk' d.counts (d.bins.map (fun b => 100 * b / rxdose)) d.dvh_type
      "%" d.volume_units d.rx_dose d.name)

/-- The method `DVH.absolute_volume(volume, volume_units='cm3')`: identity
when the volume units already match, otherwise a new DVH whose counts are
scaled by `volume / 100`. -/
def DVH.absolute_volume (d : DVH) (volume : ℚ) (volume_units : String) : DVH :=
  if d.volume_units = volume_units then d
  else
    DVH.mk' (d.counts.map (fun c => volume * c / 100)) d.bins d.dvh_type
      d.dose_units volume_units d.rx_dose d.name

/-- First element of a nonempty list and `0` on `[]`; model of `np.max` on the
count arrays (which are nonempty for every meaningful DVH). -/
def maxList : List ℚ → ℚ
  | [] => 0
  | a :: t => t.foldl max a

/-- The scaling branch of `DVH.relative_volume`: a new DVH through the
constructor with counts `100 * counts / counts.max()` and volume units
`'%'`. -/
def DVH.relVolScale (d : DVH) : DVH :=
  DVH.mk' (d.counts.map (fun c => 100 * c / maxList d.counts)) d.bins
    d.dvh_type d.dose_units "%" d.rx_dose d.name

/-- The property `DVH.relative_volume`: identity when the volume units are
already `'%'`; on a differential DVH it routes
`self.cumulative.relative_volume.differential` (the inner recursive call is
unfolded one step here: the cumulative intermediate has `dvh_type`
`'cumulative'` and the same non-`'%'` volume units, so it provably takes the
scaling branch); otherwise the scaling branch. -/
def DVH.relative_volume (d : DVH) : DVH :=
  if d.volume_units = "%" then d
  else if d.dvh_type = "differential" then DVH.differential d.cumulative.relVolScale
  else d.relVolScale

/-- Index of the first minimum of `|v - x|` over the remaining list, given the
current best index and best value; helper for `np.argmin(np.fabs(arr - x))`
(numpy returns the first index attaining the minimum). -/
def argminAbsAux (x : ℚ) : List ℚ → Nat → Nat → ℚ → Nat
  | [], _, bi, _ => bi
  | v :: t, i, bi, bv =>
      if |v - x| < bv then argminAbsAux x t (i + 1) i |v - x|
      else argminAbsAux x t (i + 1) bi bv

/-- The model of `np.argmin(np.fabs(arr - x))`: first index of the minimal
absolute difference (`0` on the empty list, where numpy would raise). -/
def argminAbs (x : ℚ) : List ℚ → Nat
  | [] => 0
  | v :: t => argminAbsAux x t 1 0 |v - x|

/-- A `DVHValue`: a number tagged with a unit string. -/
structure DVHValue where
  value : ℚ
  units : String
deriving DecidableEq

/-- The dose-bin series consulted by `DVH.volume_constraint`: bins of
`self.relative_dose(14)` when no dose units are given, bins of
`self.absolute_dose(14)` otherwise.  The placeholder prescription dose `14` is
truthy, so the error branch of the conversions is unreachable (modelled by
`[]`). -/
def DVH.doseLookupBins (d : DVH) (dose_units : Option String) : List ℚ :=
  match dose_units with
  | none =>
      match d.relative_dose (some 14) with
      | .ok x => x.bins
      | .error _ => []
  | some _ =>
      match d.absolute_dose (some 14) "gy" with
      | .ok x => x.bins
      | .error _ => []

/-- The method `DVH.volume_constraint(dose, dose_units=None)`: nearest-bin
lookup of `dose` in the (relative or absolute) dose-bin series, returning the
count at that index, or a zero `DVHValue` when the index falls at or beyond
the end of the count array. -/
def DVH.volume_constraint (d : DVH) (dose : ℚ) (dose_units : Option String) :
    DVHValue :=
  let dose_bins := d.doseLookupBins dose_units
  let index := argminAbs dose dose_bins
  if d.counts.length ≤ index then ⟨0, d.volume_units⟩
  else ⟨d.counts.getD index 0, d.volume_units⟩

/-- The volume-count series consulted by `DVH.dose_constraint`: counts of
`self.relative_volume` when no volume units are given, counts of
`self.absolute_volume(14)` otherwise. -/
def DVH.volLookupCounts (d : DVH) (volume_units : Option String) : List ℚ :=
  match volume_units with
  | none => d.relative_volume.counts
  | some _ => (d.absolute_volume 14 "cm3").counts

/-- The method `DVH.dose_constraint(volume, volume_units=None)`: returns a
zero `DVHValue` when `volume` strictly exceeds the maximum of the volume-count
series, otherwise the bin edge nearest (in count space) to `volume`. -/
def DVH.dose_constraint (d : DVH) (volume : ℚ) (volume_units : Option String) :
    DVHValue :=
  let volume_counts := d.volLookupCounts volume_units
  if maxList volume_counts < volume then ⟨0, d.dose_units⟩
  else ⟨d.bins.getD (argminAbs volume volume_counts) 0, d.dose_units⟩

/-- The property `DVH.bincenters`: `0.5 * (bins[1:] + bins[:-1])`. -/
def DVH.bincenters (d : DVH) : List ℚ :=
  List.zipWith (fun a b => (a + b) / 2) d.bins.tail d.bins.dropLast

/-- The property `DVH.mean`: the sum of `bincenters * counts` of the
differential view divided by the sum of its counts. -/
def DVH.mean (d : DVH) : ℚ :=
  let diff := d.differential
  (List.zipWith (· * ·) diff.bincenters diff.counts).sum / diff.counts.sum

/-- The property `DVH.volume`: the sum of the differential counts. -/
def DVH.volume (d : DVH) : ℚ :=
  d.differential.counts.sum

/-! ### The metric-name resolver of `DVH.__getattr__` -/

/-- Python `\\s` for the ASCII whitespace characters. -/
def isWsC (c : Char) : Bool :=
  c = ' ' || c = '\t' || c = '\n' || c = '\r' || c = '\x0b' || c = '\x0c'

/-- Python `\\d`: an ASCII decimal digit. -/
def isDigitC (c : Char) : Bool := '0' ≤ c && c ≤ '9'

/-- The metric-kind alternation `(D|V)` under `re.IGNORECASE`. -/
def isDVC (c : Char) : Bool := c = 'D' || c = 'd' || c = 'V' || c = 'v'

/-- The negative lookahead `(?!\\S+)`: succeeds at the end of the string or
before a whitespace character. -/
def lookaheadOk : List Char → Bool
  | [] => true
  | c :: _ => isWsC c

/-- All ways the number group `\\d+[.]?\\d*` can match at the start of `s`, as
pairs (consumed, remaining), in the order the backtracking engine tries them:
greedy, so first the alternatives that consume the dot (with ever shorter
trailing digit runs), then the dot-free alternatives with ever shorter leading
digit runs. -/
def numberCands (s : List Char) : List (List Char × List Char) :=
  let d1 := s.takeWhile isDigitC
  let rest1 := s.dropWhile isDigitC
  if d1.isEmpty then []
  else
    let noDot := (List.range d1.length).map (fun j =>
      (d1.take (d1.length - j), d1.drop (d1.length - j) ++ rest1))
    match rest1 with
    | '.' :: rest2 =>
      let d2 := rest2.takeWhile isDigitC
      let rest3 := rest2.dropWhile isDigitC
      let withDot := (List.range (d2.length + 1)).map (fun j =>
        (d1 ++ '.' :: d2.take (d2.length - j),
          d2.drop (d2.length - j) ++ rest3))
      withDot ++ noDot
    | _ => noDot

/-- All ways the unit group `(gy|cc)?` (case-insensitive) can match at the
start of `rem`, in engine order: first the two-character alternatives, then
the empty match. -/
def suffixCands (rem : List Char) : List (Option (List Char) × List Char) :=
  (match rem with
   | a :: b :: r =>
     (if (a = 'g' || a = 'G') && (b = 'y' || b = 'Y') then [(some [a, b], r)]
      else []) ++
     (if (a = 'c' || a = 'C') && (b = 'c' || b = 'C') then [(some [a, b], r)]
      else [])
   | _ => []) ++ [(none, rem)]

/-- Matching `(D|V){1}(\\d+[.]?\\d*)(gy|cc)?(?!\\S+)` at the start of `s`,
returning the kind character, the number group and the optional unit group of
the first successful alternative in engine order. -/
def coreMatch (s : List Char) : Option (Char × List Char × Option (List Char)) :=
  match s with
  | [] => none
  | c :: t =>
    if isDVC c then
      (numberCands t).findSome? (fun nc =>
        (suffixCands nc.2).findSome? (fun sc =>
          if lookaheadOk sc.2 then some (c, nc.1, sc.1) else none))
    else none

/-- The full anchored match of `re.match` on the statistic-name pattern: the
greedy optional group `(\\S+)?` tries the longest leading run of non-space
characters first, then ever shorter ones, then the empty alternative; the
first component of the result is the length of the matched leading group
(`None` when the group is empty, i.e. `match.groups()[0] is None`). -/
def reFullMatch (s : List Char) :
    Option (Option Nat × Char × List Char × Option (List Char)) :=
  let preLen := (s.takeWhile (fun c => !(isWsC c))).length
  (((List.range preLen).map (fun j => some (preLen - j))) ++ [none]).findSome?
    (fun g1 : Option Nat =>
      (coreMatch (s.drop (g1.getD 0))).map (fun g => (g1, g)))

/-- Value of a digit string, as Python `int` parses it. -/
def digitsVal (l : List Char) : Nat :=
  l.foldl (fun acc c => 10 * acc + (c.toNat - 48)) 0

/-- Python `int(str)` on the number group: succeeds on a pure digit string and
raises `ValueError` otherwise (in particular on any numeral containing a
decimal point). -/
def pyInt (l : List Char) : Except PyErr Nat :=
  if !l.isEmpty && l.all isDigitC then .ok (digitsVal l) else .error .valueError

/-- The constraint query `DVH.__getattr__` dispatches to: a dose-constraint
lookup (`dose_constraint threshold volume_units`) or a volume-constraint
lookup (`volume_constraint threshold dose_units`). -/
inductive Query where
  | doseC : ℚ → Option String → Query
  | volC : ℚ → Option String → Query
deriving DecidableEq

deriving instance DecidableEq for Except

/-- The dispatch of `DVH.__getattr__`: no match or a nonempty leading group
raises `AttributeError`; otherwise the lowered group list
`c = [x.lower() for x in match.groups() if x]` drives `int(c[1])` and the
choice between `volume_constraint` and `dose_constraint`, with the lowered
unit suffix passed along when present. -/
def resolveStat (name : String) : Except PyErr Query :=
  match reFullMatch name.data with
  | none => .error .attributeError
  | some (some _, _, _, _) => .error .attributeError
  | some (none, dv, num, suf) =>
    match pyInt num with
    | .error e => .error e
    | .ok n =>
      let kind := lowerChar dv
      let sufStr : Option String :=
        suf.map (fun l => String.mk (l.map lowerChar))
      if kind = 'v' then .ok (.volC (n : ℚ) sufStr)
      else .ok (.doseC (n : ℚ) sufStr)

/-- The method `DVH.__getattr__` itself: resolve the statistic name and apply
the corresponding constraint lookup to this DVH. -/
def getattrStat (d : DVH) (name : String) : Except PyErr DVHValue :=
  match resolveStat name with
  | .error e => .error e
  | .ok (.volC n u) => .ok (d.volume_constraint n u)
  | .ok (.doseC n u) => .ok (d.dose_constraint n u)

/-! ### Basic facts about the constructor and the two view transforms -/

theorem DVH.mk'_counts (c b : List ℚ) (t du vu : String) (rx : Option ℚ)
    (nm : Option String) : (DVH.mk' c b t du vu rx nm).counts = c := rfl

theorem DVH.mk'_bins (c b : List ℚ) (t du vu : String) (rx : Option ℚ)
    (nm : Option String) :
    (DVH.mk' c b t du vu rx nm).bins = if b.head? = some 0 then b else 0 :: b :=
  rfl

theorem DVH.mk'_dvh_type (c b : List ℚ) (t du vu : String) (rx : Option ℚ)
    (nm : Option String) : (DVH.mk' c b t du vu rx nm).dvh_type = lowerStr t :=
  rfl

theorem DVH.mk'_dose_units (c b : List ℚ) (t du vu : String) (rx : Option ℚ)
    (nm : Option String) :
    (DVH.mk' c b t du vu rx nm).dose_units = lowerStr du := rfl

theorem DVH.mk'_volume_units (c b : List ℚ) (t du vu : String) (rx : Option ℚ)
    (nm : Option String) :
    (DVH.mk' c b t du vu rx nm).volume_units = lowerStr vu := rfl

theorem DVH.mk'_rx_dose (c b : List ℚ) (t du vu : String) (rx : Option ℚ)
    (nm : Option String) : (DVH.mk' c b t du vu rx nm).rx_dose = rx := rfl

theorem DVH.mk'_name (c b : List ℚ) (t du vu : String) (rx : Option ℚ)
    (nm : Option String) : (DVH.mk' c b t du vu rx nm).name = nm := rfl

theorem DVH.differential_of_ne (d : DVH) (h : ¬ d.dvh_type = "differential") :
    d.differential =
      DVH.mk' (adjDiffAbs d.counts ++ [0]) d.bins "differential" d.dose_units
        d.volume_units d.rx_dose d.name := by
  unfold DVH.differential
  rw [if_neg h]

theorem DVH.cumulative_of_ne (d : DVH) (h : ¬ d.dvh_type = "cumulative") :
    d.cumulative =
      DVH.mk' (suffixSums d.counts) d.bins "cumulative" d.dose_units
        d.volume_units d.rx_dose d.name := by
  unfold DVH.cumulative
  rw [if_neg h]

theorem DVH.differential_dvh_type (d : DVH) :
    d.differential.dvh_type = "differential" := by
  unfold DVH.differential
  split
  · assumption
  · rw [DVH.mk'_dvh_type]
    decide

theorem DVH.cumulative_dvh_type (d : DVH) :
    d.cumulative.dvh_type = "cumulative" := by
  unfold DVH.cumulative
  split
  · assumption
  · rw [DVH.mk'_dvh_type]
    decide

/-! ### The counts round trip -/

theorem sum_of_suffixSums_cons {m : List ℚ} {y : ℚ} {ys : List ℚ}
    (h : suffixSums m = y :: ys) : m.sum = y := by
  cases m with
  | nil => simp [suffixSums] at h
  | cons a t =>
    rw [suffixSums] at h
    injection h with h1 h2

theorem roundtrip_counts :
    ∀ l : List ℚ, List.Chain' (fun a b => a ≥ b) l → l.getLast? = some 0 →
      suffixSums (adjDiffAbs l ++ [0]) = l := by
  intro l
  induction l with
  | nil => intro _ h; simp at h
  | cons a t ih =>
    intro hch hlast
    cases t with
    | nil =>
      have ha : a = 0 := by simpa using hlast
      subst ha
      simp [adjDiffAbs, suffixSums]
    | cons b t' =>
      have hab : a ≥ b := (List.chain'_cons.mp hch).1
      have hch' : List.Chain' (fun a b => a ≥ b) (b :: t') :=
        (List.chain'_cons.mp hch).2
      have hlast' : (b :: t').getLast? = some 0 := by
        rwa [List.getLast?_cons_cons] at hlast
      have IH := ih hch' hlast'
      have hsum : (adjDiffAbs (b :: t') ++ [0]).sum = b :=
        sum_of_suffixSums_cons IH
      show suffixSums (|a - b| :: (adjDiffAbs (b :: t') ++ [0])) = a :: b :: t'
      rw [suffixSums, IH, hsum, abs_of_nonneg (sub_nonneg.mpr hab),
        sub_add_cancel]

theorem DVH.differential_idem (H : DVH) :
    H.differential.differential = H.differential := by
  by_cases h : H.dvh_type = "differential"
  · have e : H.differential = H := by
      unfold DVH.differential
      rw [if_pos h]
    rw [e]
    exact e
  · have e := H.differential_of_ne h
    have h2 : (DVH.mk' (adjDiffAbs H.counts ++ [0]) H.bins "differential"
        H.dose_units H.volume_units H.rx_dose H.name).dvh_type =
        "differential" := by
      rw [DVH.mk'_dvh_type]; decide
    rw [e]
    unfold DVH.differential
    rw [if_pos h2]

theorem DVH.cumulative_idem (H : DVH) :
    H.cumulative.cumulative = H.cumulative := by
  by_cases h : H.dvh_type = "cumulative"
  · have e : H.cumulative = H := by
      unfold DVH.cumulative
      rw [if_pos h]
    rw [e]
    exact e
  · have e := H.cumulative_of_ne h
    have h2 : (DVH.mk' (suffixSums H.counts) H.bins "cumulative"
        H.dose_units H.volume_units H.rx_dose H.name).dvh_type =
        "cumulative" := by
      rw [DVH.mk'_dvh_type]; decide
    rw [e]
    unfold DVH.cumulative
    rw [if_pos h2]

/-- The concrete cumulative DVH of the spec scenario: counts
`[10, 8, 5, 2, 0]` over bins `[0, 1, 2, 3, 4, 5]`. -/
def exDVH : DVH :=
  DVH.mk' [10, 8, 5, 2, 0] [0, 1, 2, 3, 4, 5] "cumulative" "gy" "cm3" none none

/-- A one-count cumulative DVH whose single count is nonzero; its
differential view is `[0]`, so the round trip back to cumulative loses the
original count. -/
def oneDVH : DVH := DVH.mk' [1] [0, 1] "cumulative" "gy" "cm3" none none

/-- C1 counterexample: for the cumulative DVH with counts `[1]` and bins
`[0, 1]`, `H.differential.cumulative` has counts `[0]` and is **not** equal to
`H` under `DVH.__eq__`, so the round trip of C1 fails without further
hypotheses on the counts. -/
theorem C1_counterexample :
    oneDVH.dvh_type = "cumulative" ∧
      dvhEq oneDVH.differential.cumulative oneDVH = false := by
  constructor
  · decide
  · norm_num +decide [oneDVH, dvhEq, DVH.differential, DVH.cumulative,
      DVH.mk', adjDiffAbs, suffixSums, lowerStr, lowerChar]

/-- C1 (amended): for every well-formed cumulative DVH whose counts are
non-increasing and end in `0`, `H.differential.cumulative` equals `H` under
`DVH.__eq__`; and the differential (resp. cumulative) transform applied twice
in a row always equals the transform applied once (the second application is
the identity short-circuit). -/
theorem C1_roundtrip_and_idempotence :
    (∀ H : DVH, H.WF → H.dvh_type = "cumulative" →
        List.Chain' (fun a b => a ≥ b) H.counts →
        H.counts.getLast? = some 0 →
        dvhEq H.differential.cumulative H = true) ∧
    (∀ H : DVH, H.differential.differential = H.differential) ∧
    (∀ H : DVH, H.cumulative.cumulative = H.cumulative) := by
  refine ⟨?_, DVH.differential_idem, DVH.cumulative_idem⟩
  intro H hWF htype hch hlast
  obtain ⟨hb, -, hdu, hvu⟩ := hWF
  have hne : ¬ H.dvh_type = "differential" := by rw [htype]; decide
  rw [H.differential_of_ne hne]
  rw [DVH.cumulative_of_ne _ (by rw [DVH.mk'_dvh_type]; decide)]
  simp only [dvhEq, DVH.mk'_counts, DVH.mk'_bins, DVH.mk'_dvh_type,
    DVH.mk'_dose_units, DVH.mk'_volume_units, hb, if_pos, decide_eq_true_eq]
  refine ⟨?_, ?_, ?_, ?_, ?_⟩
  · rw [htype]; decide
  · rw [hdu, hdu]
  · rw [hvu, hvu]
  · exact roundtrip_counts H.counts hch hlast
  · simp [hb]

/-- C1 witness: the amended round trip evaluated on the spec's concrete
cumulative DVH (counts `[10, 8, 5, 2, 0]`, bins `[0, 1, 2, 3, 4, 5]`). -/
theorem C1_witness :
    (exDVH.WF ∧ exDVH.dvh_type = "cumulative" ∧
        List.Chain' (fun a b => a ≥ b) exDVH.counts ∧
        exDVH.counts.getLast? = some 0) ∧
      dvhEq exDVH.differential.cumulative exDVH = true := by
  have h1 : exDVH.WF := by decide
  have h2 : exDVH.dvh_type = "cumulative" := by decide
  have h3 : List.Chain' (fun a b => a ≥ b) exDVH.counts := by
    show List.Chain' (fun a b => a ≥ b) [10, 8, 5, 2, 0]
    norm_num [List.chain'_cons]
  have h4 : exDVH.counts.getLast? = some 0 := by decide
  exact ⟨⟨h1, h2, h3, h4⟩, C1_roundtrip_and_idempotence.1 exDVH h1 h2 h3 h4⟩

/-! ### C2: the shape of the differential counts -/

theorem adjDiffAbs_length : ∀ l : List ℚ, (adjDiffAbs l).length = l.length - 1
  | [] => rfl
  | [_] => rfl
  | a :: b :: t => by
    show (|a - b| :: adjDiffAbs (b :: t)).length = (a :: b :: t).length - 1
    rw [List.length_cons, adjDiffAbs_length (b :: t)]
    simp

theorem adjDiffAbs_getElem? :
    ∀ (l : List ℚ) (i : Nat), i + 1 < l.length →
      (adjDiffAbs l)[i]? = some |l.getD i 0 - l.getD (i + 1) 0|
  | [], i, h => by simp at h
  | [_], i, h => by simp at h
  | a :: b :: t, 0, _ => by
    show (|a - b| :: adjDiffAbs (b :: t))[0]? = _
    simp [List.getD]
  | a :: b :: t, i + 1, h => by
    have h2 : i + 1 < (b :: t).length := by simpa using h
    have IH := adjDiffAbs_getElem? (b :: t) i h2
    show (|a - b| :: adjDiffAbs (b :: t))[i + 1]? = _
    rw [List.getElem?_cons_succ, IH]
    simp [List.getD_cons_succ]

/-- C2 counterexample: for the cumulative DVH with the non-monotone counts
`[1, 2]`, the differential transform yields counts `[1, 0]` — entry `0` is
`|1 - 2| = 1`, not the signed difference `1 - 2 = -1` the claim states. -/
theorem C2_counterexample :
    (DVH.differential
        (DVH.mk' [1, 2] [0, 1, 2] "cumulative" "gy" "cm3" none none)).counts =
      [1, 0] ∧ (1 : ℚ) ≠ 1 - 2 := by
  constructor
  · norm_num +decide [DVH.differential, DVH.mk', adjDiffAbs, lowerStr,
      lowerChar]
  · norm_num

/-- C2 (amended): for every well-formed cumulative DVH with nonempty counts of
length `N`, the differential transform yields a DVH with dvh_type
`'differential'`, counts of length `N` satisfying
`diff[i] = |counts[i] - counts[i+1]|` for `i ∈ [0, N-2]` and `diff[N-1] = 0`
(the absolute difference, not the signed one), and all other fields carried
over unchanged. -/
theorem C2_differential_shape :
    ∀ H : DVH, H.WF → H.dvh_type = "cumulative" → H.counts ≠ [] →
      (∀ i : Nat, i + 1 < H.counts.length →
          H.differential.counts[i]? =
            some |H.counts.getD i 0 - H.counts.getD (i + 1) 0|) ∧
        H.differential.counts[H.counts.length - 1]? = some 0 ∧
        H.differential.counts.length = H.counts.length ∧
        H.differential.dvh_type = "differential" ∧
        H.differential.bins = H.bins ∧
        H.differential.dose_units = H.dose_units ∧
        H.differential.volume_units = H.volume_units ∧
        H.differential.rx_dose = H.rx_dose ∧
        H.differential.name = H.name := by
  intro H hWF htype hne
  obtain ⟨hb, -, hdu, hvu⟩ := hWF
  have hnd : ¬ H.dvh_type = "differential" := by rw [htype]; decide
  rw [H.differential_of_ne hnd]
  simp only [DVH.mk'_counts, DVH.mk'_bins, DVH.mk'_dvh_type,
    DVH.mk'_dose_units, DVH.mk'_volume_units, DVH.mk'_rx_dose, DVH.mk'_name]
  have hlen : (adjDiffAbs H.counts).length = H.counts.length - 1 :=
    adjDiffAbs_length H.counts
  have hpos : 0 < H.counts.length := List.length_pos.mpr hne
  refine ⟨?_, ?_, ?_, ?_, ?_, hdu, hvu, trivial, trivial⟩
  · intro i hi
    rw [List.getElem?_append_left (by omega : i < (adjDiffAbs H.counts).length)]
    exact adjDiffAbs_getElem? H.counts i hi
  · rw [List.getElem?_append_right (by omega : (adjDiffAbs H.counts).length ≤
      H.counts.length - 1)]
    have hidx : H.counts.length - 1 - (adjDiffAbs H.counts).length = 0 := by
      omega
    rw [hidx]
    rfl
  · rw [List.length_append, hlen]
    simp
    omega
  · decide
  · rw [hb]; simp [hb]

/-- C2 witness: the amended differential-shape theorem evaluated on the
spec's concrete cumulative DVH; entry `1` of the differential counts is
`|8 - 5| = 3` and the final entry is `0`. -/
theorem C2_witness :
    (exDVH.WF ∧ exDVH.dvh_type = "cumulative" ∧ exDVH.counts ≠ [] ∧
        1 + 1 < exDVH.counts.length) ∧
      exDVH.differential.counts[1]? =
        some |exDVH.counts.getD 1 0 - exDVH.counts.getD 2 0| := by
  have h1 : exDVH.WF := by decide
  have h2 : exDVH.dvh_type = "cumulative" := by decide
  have h3 : exDVH.counts ≠ [] := by decide
  have h4 : 1 + 1 < exDVH.counts.length := by decide
  exact ⟨⟨h1, h2, h3, h4⟩, (C2_differential_shape exDVH h1 h2 h3).1 1 h4⟩

/-! ### C3: the missing-prescription-dose error condition -/

/-- A DVH whose stored prescription dose is present but zero: Python
truthiness treats it as absent. -/
def zeroRxDVH : DVH :=
  DVH.mk' [1] [0, 1] "cumulative" "gy" "cm3" (some 0) none

/-- C3 counterexample: for a DVH whose stored `rx_dose` is `0` (present, in
the sense of not `None`), `relative_dose(None)` still raises the
missing-prescription-dose error, because the code tests Python truthiness
(`not self.rx_dose`), not presence.  So "fails iff neither is present" is
false as stated. -/
theorem C3_counterexample :
    zeroRxDVH.rx_dose.isSome = true ∧ zeroRxDVH.dose_units ≠ "%" ∧
      zeroRxDVH.relative_dose none = .error .missingRxDose := by
  refine ⟨rfl, by decide, ?_⟩
  norm_num +decide [zeroRxDVH, DVH.relative_dose, DVH.mk', pyFalsy, lowerStr,
    lowerChar]

/-- C3 (amended): when the dose units already equal the requested target
units, `absolute_dose` (resp. `relative_dose`) returns the same instance and
never fails; when they differ, the conversion fails with the
missing-prescription-dose error **iff neither the stored `rx_dose` nor the
argument is truthy** — `None` and `0` both count as absent. -/
theorem C3_missing_rx_iff :
    ∀ (d : DVH) (rx : Option ℚ) (du : String),
      (d.dose_units = du → d.absolute_dose rx du = .ok d) ∧
      (d.dose_units ≠ du →
        (d.absolute_dose rx du = .error .missingRxDose ↔
          pyFalsy d.rx_dose = true ∧ pyFalsy rx = true)) ∧
      (d.dose_units = "%" → d.relative_dose rx = .ok d) ∧
      (d.dose_units ≠ "%" →
        (d.relative_dose rx = .error .missingRxDose ↔
          pyFalsy d.rx_dose = true ∧ pyFalsy rx = true)) := by
  intro d rx du
  refine ⟨?_, ?_, ?_, ?_⟩
  · intro he
    unfold DVH.absolute_dose
    rw [if_pos he]
  · intro hne
    unfold DVH.absolute_dose
    rw [if_neg hne]
    by_cases hf : (pyFalsy d.rx_dose && pyFalsy rx) = true
    · rw [if_pos hf]
      rw [Bool.and_eq_true] at hf
      simp [hf]
    · rw [if_neg hf]
      rw [Bool.and_eq_true] at hf  -- hf fails? hf : ¬ (_ && _) = true
      constructor
      · intro h
        exact Except.noConfusion h
      · intro hx
        exact absurd hx hf
  · intro he
    unfold DVH.relative_dose
    rw [if_pos he]
  · intro hne
    unfold DVH.relative_dose
    rw [if_neg hne]
    by_cases hf : (pyFalsy d.rx_dose && pyFalsy rx) = true
    · rw [if_pos hf]
      rw [Bool.and_eq_true] at hf
      simp [hf]
    · rw [if_neg hf]
      rw [Bool.and_eq_true] at hf
      constructor
      · intro h
        exact Except.noConfusion h
      · intro hx
        exact absurd hx hf

/-- C3 witness: the amended error condition evaluated on the concrete DVH with
dose units `'gy'`, no stored prescription dose, and no argument: the relative
conversion fails, and both optional doses are indeed falsy. -/
theorem C3_witness :
    exDVH.dose_units ≠ "%" ∧
      (exDVH.relative_dose none = .error .missingRxDose ↔
        pyFalsy exDVH.rx_dose = true ∧ pyFalsy (none : Option ℚ) = true) := by
  have h : exDVH.dose_units ≠ "%" := by decide
  exact ⟨h, (C3_missing_rx_iff exDVH none "gy").2.2.2 h⟩

/-! ### C10 and C7: which prescription dose the scaling uses -/

theorem DVH.absolute_dose_some (d : DVH) (du : String) (r a : ℚ)
    (hrx : d.rx_dose = some r) (hne : d.dose_units ≠ du)
    (hra : ¬(r = 0 ∧ a = 0)) :
    d.absolute_dose (some a) du =
      .ok (DVH.mk' d.counts (d.bins.map (fun b => b * r / 100)) d.dvh_type du
        d.volume_units d.rx_dose d.name) := by
  have hcond : ¬ ((pyFalsy d.rx_dose && pyFalsy (some a)) = true) := by
    rw [hrx]
    intro h
    rw [Bool.and_eq_true] at h
    simp [pyFalsy] at h
    exact hra h
  unfold DVH.absolute_dose
  rw [if_neg hne, if_neg hcond, hrx]

theorem DVH.relative_dose_some (d : DVH) (r a : ℚ)
    (hrx : d.rx_dose = some r) (hne : d.dose_units ≠ "%")
    (hra : ¬(r = 0 ∧ a = 0)) :
    d.relative_dose (some a) =
      .ok (DVH.mk' d.counts (d.bins.map (fun b => 100 * b / r)) d.dvh_type "%"
        d.volume_units d.rx_dose d.name) := by
  have hcond : ¬ ((pyFalsy d.rx_dose && pyFalsy (some a)) = true) := by
    rw [hrx]
    intro h
    rw [Bool.and_eq_true] at h
    simp [pyFalsy] at h
    exact hra h
  unfold DVH.relative_dose
  rw [if_neg hne, if_neg hcond, hrx]

theorem DVH.absolute_dose_none (d : DVH) (du : String) (a : ℚ)
    (hrx : d.rx_dose = none) (hne : d.dose_units ≠ du) (ha : ¬ a = 0) :
    d.absolute_dose (some a) du =
      .ok (DVH.mk' d.counts (d.bins.map (fun b => b * a / 100)) d.dvh_type du
        d.volume_units d.rx_dose d.name) := by
  have hcond : ¬ ((pyFalsy d.rx_dose && pyFalsy (some a)) = true) := by
    rw [hrx]
    intro h
    rw [Bool.and_eq_true] at h
    simp [pyFalsy] at h
    exact ha h
  unfold DVH.absolute_dose
  rw [if_neg hne, if_neg hcond, hrx]
  rfl

theorem DVH.relative_dose_none (d : DVH) (a : ℚ)
    (hrx : d.rx_dose = none) (hne : d.dose_units ≠ "%") (ha : ¬ a = 0) :
    d.relative_dose (some a) =
      .ok (DVH.mk' d.counts (d.bins.map (fun b => 100 * b / a)) d.dvh_type "%"
        d.volume_units d.rx_dose d.name) := by
  have hcond : ¬ ((pyFalsy d.rx_dose && pyFalsy (some a)) = true) := by
    rw [hrx]
    intro h
    rw [Bool.and_eq_true] at h
    simp [pyFalsy] at h
    exact ha h
  unfold DVH.relative_dose
  rw [if_neg hne, if_neg hcond, hrx]
  rfl

/-- C10: in `absolute_dose` and `relative_dose`, whenever the stored `rx_dose`
is not `None` the scaling uses the stored value `r` and the caller's argument
`a` is ignored (it does not occur in the result); the caller's argument is
used only when the stored `rx_dose` is `None`. -/
theorem C10_instance_rx_precedence :
    (∀ (d : DVH) (du : String) (r a : ℚ), d.rx_dose = some r →
        d.dose_units ≠ du → ¬(r = 0 ∧ a = 0) →
        d.absolute_dose (some a) du =
          .ok (DVH.mk' d.counts (d.bins.map (fun b => b * r / 100)) d.dvh_type
            du d.volume_units d.rx_dose d.name)) ∧
    (∀ (d : DVH) (r a : ℚ), d.rx_dose = some r → d.dose_units ≠ "%" →
        ¬(r = 0 ∧ a = 0) →
        d.relative_dose (some a) =
          .ok (DVH.mk' d.counts (d.bins.map (fun b => 100 * b / r)) d.dvh_type
            "%" d.volume_units d.rx_dose d.name)) ∧
    (∀ (d : DVH) (du : String) (a : ℚ), d.rx_dose = none →
        d.dose_units ≠ du → ¬ a = 0 →
        d.absolute_dose (some a) du =
          .ok (DVH.mk' d.counts (d.bins.map (fun b => b * a / 100)) d.dvh_type
            du d.volume_units d.rx_dose d.name)) ∧
    (∀ (d : DVH) (a : ℚ), d.rx_dose = none → d.dose_units ≠ "%" → ¬ a = 0 →
        d.relative_dose (some a) =
          .ok (DVH.mk' d.counts (d.bins.map (fun b => 100 * b / a)) d.dvh_type
            "%" d.volume_units d.rx_dose d.name)) :=
  ⟨fun d du r a h1 h2 h3 => d.absolute_dose_some du r a h1 h2 h3,
   fun d r a h1 h2 h3 => d.relative_dose_some r a h1 h2 h3,
   fun d du a h1 h2 h3 => d.absolute_dose_none du a h1 h2 h3,
   fun d a h1 h2 h3 => d.relative_dose_none a h1 h2 h3⟩

/-- C10 witness: a DVH with stored prescription dose `20` and dose units `'%'`
converted with `absolute_dose(50)`: the resulting bins are scaled by the
stored `20 / 100`, not by the argument `50`. -/
theorem C10_witness :
    ((DVH.mk' [1] [0, 10] "cumulative" "%" "cm3" (some 20) none).rx_dose =
        some 20 ∧
      (DVH.mk' [1] [0, 10] "cumulative" "%" "cm3"
          (some 20) none).dose_units ≠ "gy" ∧
      ¬((20 : ℚ) = 0 ∧ (50 : ℚ) = 0)) ∧
    (DVH.mk' [1] [0, 10] "cumulative" "%" "cm3" (some 20) none).absolute_dose
        (some 50) "gy" =
      .ok (DVH.mk'
        (DVH.mk' [1] [0, 10] "cumulative" "%" "cm3" (some 20) none).counts
        ((DVH.mk' [1] [0, 10] "cumulative" "%" "cm3"
            (some 20) none).bins.map (fun b => b * 20 / 100))
        (DVH.mk' [1] [0, 10] "cumulative" "%" "cm3"
          (some 20) none).dvh_type "gy"
        (DVH.mk' [1] [0, 10] "cumulative" "%" "cm3"
          (some 20) none).volume_units
        (DVH.mk' [1] [0, 10] "cumulative" "%" "cm3" (some 20) none).rx_dose
        (DVH.mk' [1] [0, 10] "cumulative" "%" "cm3" (some 20) none).name) := by
  have h1 : (DVH.mk' [1] [0, 10] "cumulative" "%" "cm3"
      (some 20) none).rx_dose = some 20 := rfl
  have h2 : (DVH.mk' [1] [0, 10] "cumulative" "%" "cm3"
      (some 20) none).dose_units ≠ "gy" := by decide
  have h3 : ¬((20 : ℚ) = 0 ∧ (50 : ℚ) = 0) := by norm_num
  exact ⟨⟨h1, h2, h3⟩,
    C10_instance_rx_precedence.1
      (DVH.mk' [1] [0, 10] "cumulative" "%" "cm3" (some 20) none)
      "gy" 20 50 h1 h2 h3⟩

/-- C7 counterexample: for a DVH whose dose units are already `'gy'`,
`absolute_dose(rx)` is the identity but `relative_dose(rx)` still rescales, so
`H.absolute_dose(50).relative_dose(50)` turns bins `[0, 1]` into `[0, 2]` —
the round trip does **not** reproduce the original bin edges for every DVH. -/
theorem C7_counterexample :
    Except.map DVH.bins
        ((oneDVH.absolute_dose (some 50) "gy").bind
          (fun d1 => d1.relative_dose (some 50))) = .ok [0, 2] ∧
      oneDVH.bins = [0, 1] ∧ ([0, 2] : List ℚ) ≠ [0, 1] := by
  refine ⟨?_, ?_, by norm_num⟩
  · norm_num +decide [oneDVH, DVH.absolute_dose, DVH.relative_dose, DVH.mk',
      pyFalsy, lowerStr, lowerChar, Except.bind, Except.map]
  · norm_num +decide [oneDVH, DVH.mk']

theorem unit_roundtrip_map (l : List ℚ) (r0 : ℚ) (hr : r0 ≠ 0) :
    (l.map (fun b => b * r0 / 100)).map (fun b => 100 * b / r0) = l := by
  induction l with
  | nil => rfl
  | cons a t ih =>
    simp only [List.map_cons]
    rw [ih]
    congr 1
    field_simp

theorem roundtrip_second_step (d : DVH) (rx r0 : ℚ)
    (hb : d.bins.head? = some 0) (hr0 : r0 ≠ 0) (D1 : DVH)
    (hD1 : D1 = DVH.mk' d.counts (d.bins.map (fun b => b * r0 / 100))
      d.dvh_type "gy" d.volume_units d.rx_dose d.name)
    (hrel : D1.relative_dose (some rx) =
      .ok (DVH.mk' D1.counts (D1.bins.map (fun b => 100 * b / r0)) D1.dvh_type
        "%" D1.volume_units D1.rx_dose D1.name)) :
    ∃ d2, (Except.ok D1 : Except PyErr DVH).bind
        (fun d1 => d1.relative_dose (some rx)) = .ok d2 ∧ d2.bins = d.bins := by
  refine ⟨_, hrel, ?_⟩
  rw [DVH.mk'_bins]
  have hD1bins : D1.bins = d.bins.map (fun b => b * r0 / 100) := by
    rw [hD1, DVH.mk'_bins]
    rw [if_pos (by rw [List.head?_map, hb]; simp)]
  rw [hD1bins, unit_roundtrip_map d.bins r0 hr0, if_pos hb]

/-- C7 (amended): for every well-formed DVH whose dose units differ from the
absolute target `'gy'` and whose stored prescription dose is `None` or
nonzero, and every positive `rx`, the composite
`H.absolute_dose(rx).relative_dose(rx)` succeeds and reproduces `H`'s
original bin edges exactly.  (For a DVH already in `'gy'` the first step is
the identity and the claim fails, see the counterexample.) -/
theorem C7_unit_roundtrip :
    ∀ (d : DVH) (rx : ℚ), d.WF → d.dose_units ≠ "gy" →
      (d.rx_dose = none ∨ ∃ r, d.rx_dose = some r ∧ r ≠ 0) → 0 < rx →
      ∃ d2, (d.absolute_dose (some rx) "gy").bind
          (fun d1 => d1.relative_dose (some rx)) = .ok d2 ∧
        d2.bins = d.bins := by
  intro d rx hWF hne hrxok hpos
  obtain ⟨hb, -, -, -⟩ := hWF
  have hrxne : rx ≠ 0 := ne_of_gt hpos
  rcases hrxok with hnone | ⟨r, hsome, hrne⟩
  · rw [d.absolute_dose_none "gy" rx hnone hne hrxne]
    refine roundtrip_second_step d rx rx hb hrxne _ rfl ?_
    apply DVH.relative_dose_none
    · rw [DVH.mk'_rx_dose]; exact hnone
    · rw [DVH.mk'_dose_units]; decide
    · exact hrxne
  · rw [d.absolute_dose_some "gy" r rx hsome hne
      (fun h => hrne h.1)]
    refine roundtrip_second_step d rx r hb hrne _ rfl ?_
    apply DVH.relative_dose_some
    · rw [DVH.mk'_rx_dose]; exact hsome
    · rw [DVH.mk'_dose_units]; decide
    · exact fun h => hrne h.1

/-- A relative-dose DVH used to witness the amended unit round trip. -/
def relDVH : DVH := DVH.mk' [1] [0, 100] "cumulative" "%" "cm3" none none

/-- C7 witness: the amended unit round trip evaluated on a concrete DVH in
relative dose units with prescription dose `50`. -/
theorem C7_witness :
    (relDVH.WF ∧ relDVH.dose_units ≠ "gy" ∧
        (relDVH.rx_dose = none ∨ ∃ r, relDVH.rx_dose = some r ∧ r ≠ 0) ∧
        (0 : ℚ) < 50) ∧
      ∃ d2, (relDVH.absolute_dose (some 50) "gy").bind
          (fun d1 => d1.relative_dose (some 50)) = .ok d2 ∧
        d2.bins = relDVH.bins := by
  have h1 : relDVH.WF := by decide
  have h2 : relDVH.dose_units ≠ "gy" := by decide
  have h3 : relDVH.rx_dose = none ∨ ∃ r, relDVH.rx_dose = some r ∧ r ≠ 0 :=
    Or.inl rfl
  have h4 : (0 : ℚ) < 50 := by norm_num
  exact ⟨⟨h1, h2, h3, h4⟩, C7_unit_roundtrip relDVH 50 h1 h2 h3 h4⟩

/-! ### C8: the concrete scenario -/

/-- C8 counterexample: the mean dose of the concrete scenario (cumulative
counts `[10, 8, 5, 2, 0]` over bins `[0..5]`) is `2`, not the `2.1` the claim
states: the weighted average of the bin centers `[0.5, 1.5, 2.5, 3.5, 4.5]` by
the differential counts `[2, 3, 3, 2, 0]` is `20 / 10 = 2`. -/
theorem C8_counterexample : DVH.mean exDVH = 2 ∧ (2 : ℚ) ≠ 21 / 10 := by
  constructor
  · norm_num +decide [exDVH, DVH.mean, DVH.differential, DVH.bincenters,
      DVH.mk', adjDiffAbs, lowerStr, lowerChar, List.zipWith]
  · norm_num

/-- C8 (amended): for the concrete cumulative DVH with counts
`[10, 8, 5, 2, 0]` over bins `[0, 1, 2, 3, 4, 5]`, the total volume is `10`,
the differential counts are `[2, 3, 3, 2, 0]`, and the mean dose is `2.0`
(the weighted average of the bin centers by the differential counts). -/
theorem C8_concrete_scenario :
    DVH.volume exDVH = 10 ∧
      (DVH.differential exDVH).counts = [2, 3, 3, 2, 0] ∧
      DVH.mean exDVH = 2 := by
  refine ⟨?_, ?_, ?_⟩
  · norm_num +decide [exDVH, DVH.volume, DVH.differential, DVH.mk',
      adjDiffAbs, lowerStr, lowerChar]
  · norm_num +decide [exDVH, DVH.differential, DVH.mk', adjDiffAbs, lowerStr,
      lowerChar]
  · norm_num +decide [exDVH, DVH.mean, DVH.differential, DVH.bincenters,
      DVH.mk', adjDiffAbs, lowerStr, lowerChar, List.zipWith]

/-! ### C9: what the constructor does and does not enforce -/

/-- C9 counterexample: the constructor accepts counts `[1]` with bins
`[1, 2]` (stored as `[0, 1, 2]` after the zero edge is prepended), producing a
DVH with `len(counts) = 1 ≠ 2 = len(bins) - 1`: the length invariant is not
enforced at construction. -/
theorem C9_counterexample :
    (DVH.mk' [1] [1, 2] "cumulative" "gy" "cm3" none none).counts.length = 1 ∧
      (DVH.mk' [1] [1, 2] "cumulative" "gy" "cm3" none none).bins.length = 3 ∧
      (1 : Nat) ≠ 3 - 1 := by
  refine ⟨rfl, ?_, by norm_num⟩
  norm_num +decide [DVH.mk']

/-- C9 (amended): the constructor always stores bins that start with the zero
edge (prepending one exactly when the caller's first edge is nonzero) and
stores the counts unchanged; it performs no validation, so the stored bins are
strictly increasing when the caller's bins are nonnegative-first and strictly
increasing, and `len(counts) = len(bins) - 1` holds exactly when the caller
supplies counts of matching length. -/
theorem C9_constructor_normalization :
    ∀ (counts : List ℚ) (b : ℚ) (bs : List ℚ) (dt du vu : String)
      (rx : Option ℚ) (nm : Option String),
      (DVH.mk' counts (b :: bs) dt du vu rx nm).bins.head? = some 0 ∧
      (b = 0 → (DVH.mk' counts (b :: bs) dt du vu rx nm).bins = b :: bs) ∧
      (b ≠ 0 →
        (DVH.mk' counts (b :: bs) dt du vu rx nm).bins = 0 :: b :: bs) ∧
      (DVH.mk' counts (b :: bs) dt du vu rx nm).counts = counts ∧
      (0 ≤ b → List.Chain' (· < ·) (b :: bs) →
        List.Chain' (· < ·) (DVH.mk' counts (b :: bs) dt du vu rx nm).bins) ∧
      ((DVH.mk' counts (b :: bs) dt du vu rx nm).counts.length =
          (DVH.mk' counts (b :: bs) dt du vu rx nm).bins.length - 1 ↔
        counts.length =
          (if b = 0 then bs.length + 1 else bs.length + 2) - 1) := by
  intro counts b bs dt du vu rx nm
  by_cases hb : b = 0
  · subst hb
    have hbins : (DVH.mk' counts ((0 : ℚ) :: bs) dt du vu rx nm).bins =
        0 :: bs := by
      rw [DVH.mk'_bins, if_pos (show ((0 : ℚ) :: bs).head? = some 0 by simp)]
    refine ⟨?_, fun _ => hbins, fun h => absurd rfl h, DVH.mk'_counts _ _ _ _
      _ _ _, ?_, ?_⟩
    · rw [hbins]; rfl
    · intro _ hch
      rw [hbins]
      exact hch
    · rw [hbins, DVH.mk'_counts]
      simp
  · have hbins : (DVH.mk' counts (b :: bs) dt du vu rx nm).bins =
        0 :: b :: bs := by
      rw [DVH.mk'_bins, if_neg (by simp [hb])]
    refine ⟨?_, fun h => absurd h hb, fun _ => hbins, DVH.mk'_counts _ _ _ _
      _ _ _, ?_, ?_⟩
    · rw [hbins]; rfl
    · intro hle hch
      rw [hbins]
      exact List.chain'_cons.mpr ⟨lt_of_le_of_ne hle (Ne.symm hb), hch⟩
    · rw [hbins, DVH.mk'_counts]
      simp [hb]

/-- C9 witness: the amended constructor theorem evaluated on counts `[1]` and
bins `[1, 2]`: the caller's bins are nonnegative-first and strictly
increasing, so the stored bins `[0, 1, 2]` are strictly increasing. -/
theorem C9_witness :
    ((0 : ℚ) ≤ 1 ∧ List.Chain' (· < ·) [(1 : ℚ), 2]) ∧
      List.Chain' (· < ·)
        (DVH.mk' [1] [1, 2] "cumulative" "gy" "cm3" none none).bins := by
  have h1 : (0 : ℚ) ≤ 1 := by norm_num
  have h2 : List.Chain' (· < ·) [(1 : ℚ), 2] := by norm_num [List.chain'_cons]
  exact ⟨⟨h1, h2⟩,
    (C9_constructor_normalization [1] 1 [2] "cumulative" "gy" "cm3" none
      none).2.2.2.2.1 h1 h2⟩

/-! ### C6: boundary behaviour of the constraint lookups -/

theorem abs_sub_of_lt {w x : ℚ} (h : w < x) : |w - x| = x - w := by
  rw [abs_sub_comm, abs_of_nonneg (sub_nonneg.mpr h.le)]

theorem argminAbsAux_strictdesc (x : ℚ) :
    ∀ (t : List ℚ) (v : ℚ) (i bi : Nat) (bv : ℚ),
      (∀ w ∈ v :: t, w < x) → List.Chain' (· < ·) (v :: t) →
      |v - x| < bv → argminAbsAux x (v :: t) i bi bv = i + t.length := by
  intro t
  induction t with
  | nil =>
    intro v i bi bv _ _ hbeat
    show (if |v - x| < bv then argminAbsAux x [] (i + 1) i |v - x|
      else argminAbsAux x [] (i + 1) bi bv) = i + 0
    rw [if_pos hbeat]
    rfl
  | cons w t' ih =>
    intro v i bi bv hmem hch hbeat
    show (if |v - x| < bv then argminAbsAux x (w :: t') (i + 1) i |v - x|
      else argminAbsAux x (w :: t') (i + 1) bi bv) = i + (t'.length + 1)
    rw [if_pos hbeat]
    have hvx : v < x := hmem v (List.mem_cons_self v _)
    have hwx : w < x := hmem w (List.mem_cons_of_mem v (List.mem_cons_self w _))
    have hvw : v < w := (List.chain'_cons.mp hch).1
    have hbeat' : |w - x| < |v - x| := by
      rw [abs_sub_of_lt hvx, abs_sub_of_lt hwx]
      linarith
    have hmem' : ∀ u ∈ w :: t', u < x := fun u hu =>
      hmem u (List.mem_cons_of_mem v hu)
    have hch' : List.Chain' (· < ·) (w :: t') := (List.chain'_cons.mp hch).2
    rw [ih w (i + 1) i |v - x| hmem' hch' hbeat']
    omega

theorem argminAbs_last (x : ℚ) (l : List ℚ)
    (hch : List.Chain' (· < ·) l) (hmem : ∀ w ∈ l, w < x) :
    argminAbs x l = l.length - 1 := by
  match l with
  | [] => rfl
  | [v] => rfl
  | v :: w :: t =>
    show argminAbsAux x (w :: t) 1 0 |v - x| = (v :: w :: t).length - 1
    have hvx : v < x := hmem v (List.mem_cons_self v _)
    have hwx : w < x := hmem w (List.mem_cons_of_mem v (List.mem_cons_self w _))
    have hvw : v < w := (List.chain'_cons.mp hch).1
    have hbeat : |w - x| < |v - x| := by
      rw [abs_sub_of_lt hvx, abs_sub_of_lt hwx]
      linarith
    have hmem' : ∀ u ∈ w :: t, u < x := fun u hu =>
      hmem u (List.mem_cons_of_mem v hu)
    have hch' : List.Chain' (· < ·) (w :: t) := (List.chain'_cons.mp hch).2
    rw [argminAbsAux_strictdesc x t w 1 0 |v - x| hmem' hch' hbeat]
    simp
    omega

theorem le_getLast_of_chain_lt :
    ∀ (l : List ℚ) (m : ℚ), List.Chain' (· < ·) l → l.getLast? = some m →
      ∀ w ∈ l, w ≤ m := by
  intro l
  induction l with
  | nil => intro m _ h; simp at h
  | cons a t ih =>
    intro m hch hlast w hw
    cases t with
    | nil =>
      have ha : a = m := by simpa using hlast
      have : w = a := by simpa using hw
      rw [this, ha]
    | cons b t' =>
      have hab : a < b := (List.chain'_cons.mp hch).1
      have hch' : List.Chain' (· < ·) (b :: t') := (List.chain'_cons.mp hch).2
      have hlast' : (b :: t').getLast? = some m := by
        rwa [List.getLast?_cons_cons] at hlast
      rcases List.mem_cons.mp hw with hwa | hwt
      · have hbm : b ≤ m :=
          ih m hch' hlast' b (List.mem_cons_self b _)
        rw [hwa]
        linarith
      · exact ih m hch' hlast' w hwt

theorem chain_map_mul (l : List ℚ) (k : ℚ) (hk : 0 < k)
    (h : List.Chain' (· < ·) l) :
    List.Chain' (· < ·) (l.map (fun b => b * k)) := by
  rw [List.chain'_map]
  refine h.imp ?_
  intro a b hab
  exact (mul_lt_mul_right hk).mpr hab

theorem scaled_bins_eq_rel (d : DVH) (r0 : ℚ) (hb : d.bins.head? = some 0)
    (c : List ℚ) (dt du2 vu : String) (rx : Option ℚ) (nm : Option String) :
    (DVH.mk' c (d.bins.map (fun b => 100 * b / r0)) dt du2 vu rx nm).bins =
      d.bins.map (fun b => b * (100 / r0)) := by
  rw [DVH.mk'_bins, if_pos (by rw [List.head?_map, hb]; simp)]
  have he : (fun b : ℚ => 100 * b / r0) = fun b : ℚ => b * (100 / r0) := by
    funext b
    rw [mul_comm 100 b, mul_div_assoc]
  rw [he]

theorem scaled_bins_eq_abs (d : DVH) (r0 : ℚ) (hb : d.bins.head? = some 0)
    (c : List ℚ) (dt du2 vu : String) (rx : Option ℚ) (nm : Option String) :
    (DVH.mk' c (d.bins.map (fun b => b * r0 / 100)) dt du2 vu rx nm).bins =
      d.bins.map (fun b => b * (r0 / 100)) := by
  rw [DVH.mk'_bins, if_pos (by rw [List.head?_map, hb]; simp)]
  have he : (fun b : ℚ => b * r0 / 100) = fun b : ℚ => b * (r0 / 100) := by
    funext b
    rw [mul_div_assoc]
  rw [he]

theorem doseLookupBins_eq (d : DVH) (du : Option String)
    (hb : d.bins.head? = some 0)
    (hrx : d.rx_dose = none ∨ ∃ r, d.rx_dose = some r ∧ 0 < r) :
    ∃ k : ℚ, 0 < k ∧ d.doseLookupBins du = d.bins.map (fun b => b * k) := by
  cases du with
  | none =>
    by_cases hpc : d.dose_units = "%"
    · have hid : d.relative_dose (some 14) = .ok d := by
        unfold DVH.relative_dose
        rw [if_pos hpc]
      refine ⟨1, one_pos, ?_⟩
      unfold DVH.doseLookupBins
      rw [hid]
      simp
    · rcases hrx with hnone | ⟨r, hsome, hrpos⟩
      · refine ⟨100 / 14, by norm_num, ?_⟩
        unfold DVH.doseLookupBins
        rw [d.relative_dose_none 14 hnone hpc (by norm_num)]
        exact scaled_bins_eq_rel d 14 hb _ _ _ _ _ _
      · refine ⟨100 / r, by positivity, ?_⟩
        unfold DVH.doseLookupBins
        rw [d.relative_dose_some r 14 hsome hpc (fun h => by norm_num at h)]
        exact scaled_bins_eq_rel d r hb _ _ _ _ _ _
  | some u =>
    by_cases hgy : d.dose_units = "gy"
    · have hid : d.absolute_dose (some 14) "gy" = .ok d := by
        unfold DVH.absolute_dose
        rw [if_pos hgy]
      refine ⟨1, one_pos, ?_⟩
      unfold DVH.doseLookupBins
      rw [hid]
      simp
    · rcases hrx with hnone | ⟨r, hsome, hrpos⟩
      · refine ⟨14 / 100, by norm_num, ?_⟩
        unfold DVH.doseLookupBins
        rw [d.absolute_dose_none "gy" 14 hnone hgy (by norm_num)]
        exact scaled_bins_eq_abs d 14 hb _ _ _ _ _ _
      · refine ⟨r / 100, by positivity, ?_⟩
        unfold DVH.doseLookupBins
        rw [d.absolute_dose_some "gy" r 14 hsome hgy (fun h => by norm_num at h)]
        exact scaled_bins_eq_abs d r hb _ _ _ _ _ _

/-- C6: for every well-formed DVH with strictly increasing bins, the length
invariant, and a positive-or-absent stored prescription dose:
`volume_constraint` at a dose strictly beyond the last edge of the consulted
dose-bin series returns the zero volume value tagged with the DVH's volume
units, and `dose_constraint` at a volume strictly exceeding the maximum of the
consulted count series returns the zero dose value tagged with the DVH's dose
units. -/
theorem C6_boundary_zero :
    ∀ d : DVH, d.WF → List.Chain' (· < ·) d.bins →
      d.counts.length + 1 = d.bins.length →
      (d.rx_dose = none ∨ ∃ r, d.rx_dose = some r ∧ 0 < r) →
      (∀ (dose : ℚ) (du : Option String) (lb : ℚ),
          (d.doseLookupBins du).getLast? = some lb → lb < dose →
          d.volume_constraint dose du = ⟨0, d.volume_units⟩) ∧
      (∀ (volume : ℚ) (vu : Option String),
          maxList (d.volLookupCounts vu) < volume →
          d.dose_constraint volume vu = ⟨0, d.dose_units⟩) := by
  intro d hWF hch hlen hrx
  obtain ⟨hb, -, -, -⟩ := hWF
  constructor
  · intro dose du lb hlast hlt
    obtain ⟨k, hk, heq⟩ := doseLookupBins_eq d du hb hrx
    have hch' : List.Chain' (· < ·) (d.doseLookupBins du) := by
      rw [heq]
      exact chain_map_mul d.bins k hk hch
    have hmem : ∀ w ∈ d.doseLookupBins du, w < dose := by
      intro w hw
      have hwlb := le_getLast_of_chain_lt _ lb hch' hlast w hw
      linarith
    have hargmin : argminAbs dose (d.doseLookupBins du) =
        (d.doseLookupBins du).length - 1 :=
      argminAbs_last dose _ hch' hmem
    have hlen' : (d.doseLookupBins du).length = d.bins.length := by
      rw [heq, List.length_map]
    show (if d.counts.length ≤ argminAbs dose (d.doseLookupBins du) then
        (⟨0, d.volume_units⟩ : DVHValue)
      else ⟨d.counts.getD (argminAbs dose (d.doseLookupBins du)) 0,
        d.volume_units⟩) = ⟨0, d.volume_units⟩
    rw [hargmin, hlen']
    rw [if_pos (by omega)]
  · intro volume vu hm
    show (if maxList (d.volLookupCounts vu) < volume then
        (⟨0, d.dose_units⟩ : DVHValue)
      else ⟨d.bins.getD (argminAbs volume (d.volLookupCounts vu)) 0,
        d.dose_units⟩) = ⟨0, d.dose_units⟩
    rw [if_pos hm]

/-- C6 witness: the boundary theorem evaluated on the concrete scenario DVH:
a dose of `1000` lies beyond the last consulted (relative) bin edge `250/7`,
and a volume of `1000` exceeds the maximum relative count `100`, so both
lookups return zero values. -/
theorem C6_witness :
    (exDVH.WF ∧ List.Chain' (· < ·) exDVH.bins ∧
        exDVH.counts.length + 1 = exDVH.bins.length ∧
        (exDVH.rx_dose = none ∨ ∃ r, exDVH.rx_dose = some r ∧ 0 < r) ∧
        (exDVH.doseLookupBins none).getLast? = some (250 / 7) ∧
        (250 / 7 : ℚ) < 1000 ∧
        maxList (exDVH.volLookupCounts none) < 1000) ∧
      exDVH.volume_constraint 1000 none = ⟨0, exDVH.volume_units⟩ ∧
      exDVH.dose_constraint 1000 none = ⟨0, exDVH.dose_units⟩ := by
  have h1 : exDVH.WF := by decide
  have h2 : List.Chain' (· < ·) exDVH.bins := by
    have hbe : exDVH.bins = [0, 1, 2, 3, 4, 5] := by
      norm_num +decide [exDVH, DVH.mk']
    rw [hbe]
    norm_num [List.chain'_cons]
  have h3 : exDVH.counts.length + 1 = exDVH.bins.length := by decide
  have h4 : exDVH.rx_dose = none ∨ ∃ r, exDVH.rx_dose = some r ∧ 0 < r :=
    Or.inl rfl
  have h5 : (exDVH.doseLookupBins none).getLast? = some (250 / 7) := by
    norm_num +decide [exDVH, DVH.doseLookupBins, DVH.relative_dose, DVH.mk',
      pyFalsy, lowerStr, lowerChar]
  have h6 : (250 / 7 : ℚ) < 1000 := by norm_num
  have h7 : maxList (exDVH.volLookupCounts none) < 1000 := by
    norm_num +decide [exDVH, DVH.volLookupCounts, DVH.relative_volume,
      DVH.relVolScale, DVH.mk', maxList, lowerStr, lowerChar, max_def]
  exact ⟨⟨h1, h2, h3, h4, h5, h6, h7⟩,
    (C6_boundary_zero exDVH h1 h2 h3 h4).1 1000 none (250 / 7) h5 h6,
    (C6_boundary_zero exDVH h1 h2 h3 h4).2 1000 none h7⟩

/-! ### C4 and C5: metric-name resolution -/

theorem findSome?_append_last_none {α β : Type} (f : α → Option β)
    (l : List α) (a : α) (h : f a = none) :
    (l ++ [a]).findSome? f = l.findSome? f := by
  induction l with
  | nil => simp [List.findSome?, h]
  | cons x xs ih =>
    cases hfx : f x with
    | none => simp [List.findSome?_cons, hfx, ih]
    | some b => simp [List.findSome?_cons, hfx]

theorem findSome?_sat {α β : Type} (f : α → Option β) (P : β → Prop)
    (l : List α) (hall : ∀ a ∈ l, ∀ b, f a = some b → P b) :
    ∀ b, l.findSome? f = some b → P b := by
  induction l with
  | nil => intro b hb; simp [List.findSome?] at hb
  | cons x xs ih =>
    intro b hb
    rw [List.findSome?_cons] at hb
    cases hfx : f x with
    | none =>
      rw [hfx] at hb
      exact ih (fun a ha => hall a (List.mem_cons_of_mem x ha)) b hb
    | some c =>
      rw [hfx] at hb
      injection hb with hbc
      exact hbc ▸ hall x (List.mem_cons_self x _) c hfx

/-- C4: `'D90'` resolves to a dose-constraint lookup at threshold `90` with no
unit suffix (relative volume percent), `'V20Gy'` resolves to a
volume-constraint lookup at threshold `20` with the `'gy'` suffix (absolute
dose), and every name at which the core grammar
`(D|V)(digits[.digits])(gy|cc)?` does not match at position 0 — names that do
not match it at all, like `'foo'`, and names that carry a leading token
before it — resolves to the unknown-statistic `AttributeError`. -/
theorem C4_metric_dispatch :
    resolveStat "D90" = .ok (.doseC 90 none) ∧
    resolveStat "V20Gy" = .ok (.volC 20 (some "gy")) ∧
    ∀ name : String, coreMatch name.data = none →
      resolveStat name = .error .attributeError := by
  refine ⟨by decide, by decide, ?_⟩
  intro name hcm
  have hfm : ∀ r, reFullMatch name.data = some r → r.1 ≠ none := by
    intro r hr
    simp only [reFullMatch] at hr
    rw [findSome?_append_last_none _ _ _ (by simp [hcm])] at hr
    refine findSome?_sat _ (fun r => r.1 ≠ none) _ ?_ r hr
    intro a ha b hb
    obtain ⟨j, -, hja⟩ := List.mem_map.mp ha
    cases hcm2 : coreMatch (name.data.drop (a.getD 0)) with
    | none =>
      rw [hcm2] at hb
      simp at hb
    | some g =>
      rw [hcm2] at hb
      injection hb with hbg
      rw [← hbg, ← hja]
      simp
  cases hr : reFullMatch name.data with
  | none =>
    unfold resolveStat
    rw [hr]
  | some r =>
    obtain ⟨g1, dv, num, suf⟩ := r
    have hne := hfm (g1, dv, num, suf) hr
    cases g1 with
    | none => simp at hne
    | some p =>
      unfold resolveStat
      rw [hr]

/-- C4 witness: the universal clause of the dispatch theorem evaluated at the
name `'foo'`, at which the core grammar does not match. -/
theorem C4_witness :
    coreMatch "foo".data = none ∧
      resolveStat "foo" = .error .attributeError := by
  have h : coreMatch "foo".data = none := by decide
  exact ⟨h, C4_metric_dispatch.2.2 "foo" h⟩

/-- C5 (code bug): the regular expression deliberately accepts a decimal
threshold — `'D90.5'` matches with no leading group and number group
`'90.5'` — but the dispatch then calls `int('90.5')`, which raises
`ValueError` instead of performing the dose-constraint lookup at `90.5` that
the grammar (and the spec) promise. -/
theorem C5_decimal_threshold_valueerror :
    reFullMatch "D90.5".data = some (none, 'D', ['9', '0', '.', '5'], none) ∧
      resolveStat "D90.5" = .error .valueError := by
  exact ⟨by decide, by decide⟩
